import Mathlib

/-!
Verification of the prompt registry and command-resolution logic of the
prompts extension (`script.py`).

The Python module keeps a global dict `prompts_data : title → prompt-dict`,
persists it to a JSON file after every mutation, and resolves slash commands
in chat input (`chat_input_modifier`).  We embed it shallowly:

* a Python dict is an association list `List (String × Prompt)` with the
  dict operations (`dictGet`, `dictSet`, `dictDel`) mirroring CPython
  semantics: unique keys, assignment to an existing key replaces the value
  in place, assignment to a fresh key appends, deletion removes the entry;
* the persisted JSON file is `Option Store` inside `StoreState`
  (`none` = file absent); serialisation details are out of scope, the file
  holds the mapping itself;
* `datetime.now().isoformat()` timestamps are abstract clock values `Nat`
  passed as a `now` parameter to each mutating operation;
* Python string operations used by the code are reimplemented on `List Char`
  with CPython semantics: `s.split(' ', 1)` (`pySplitSpace1`),
  `s.startswith(p)` (`pyStartsWith`), `p in s` (`pyContains`),
  `s.replace(p, r)` (`pyReplace`, leftmost non-overlapping occurrences).

Python functions return status strings and mutate the globals; here each
operation returns the status string together with the new `StoreState`
(in the source the second returned component is `get_prompts_list()` of the
post-state, derivable from the returned state).
-/

/-- A stored prompt: the value type of the `prompts_data` dict built in
`create_prompt` / `update_prompt` (fields `title`, `command`, `content`,
`creator`, `created`, `modified`; timestamps are abstract `Nat` clocks). -/
structure Prompt where
  title : String
  command : String
  content : String
  creator : String
  created : Nat
  modified : Nat
deriving DecidableEq, Inhabited

/-- The in-memory `prompts_data` dict: association list keyed by title,
in insertion order, with unique keys (a Python dict). -/
abbrev Store := List (String × Prompt)

/-- Whole program state: the in-memory dict plus the persisted file contents
(`none` when `prompts.json` does not exist). -/
structure StoreState where
  prompts_data : Store
  persisted : Option Store
deriving DecidableEq

/-- The fixed author identity of the source (`current_user = "default_user"`). -/
def current_user : String := "default_user"

/-- Python `d[k]` lookup (first — and with unique keys, only — entry). -/
def dictGet (m : Store) (k : String) : Option Prompt :=
  match m with
  | [] => none
  | (k1, v) :: rest => if k1 = k then some v else dictGet rest k

/-- Python `d[k] = v`: replace in place when the key is present, else append. -/
def dictSet (m : Store) (k : String) (v : Prompt) : Store :=
  match m with
  | [] => [(k, v)]
  | (k1, v1) :: rest =>
    if k1 = k then (k, v) :: rest else (k1, v1) :: dictSet rest k v

/-- Python `del d[k]` / `d.pop(k)` (state part): drop the entry keyed `k`. -/
def dictDel (m : Store) (k : String) : Store :=
  match m with
  | [] => []
  | (k1, v1) :: rest =>
    if k1 = k then rest else (k1, v1) :: dictDel rest k

/-- The keys of the dict, in order (`list(d.keys())`). -/
def keysOf (m : Store) : List String :=
  m.map (fun kv => kv.1)

/-- The `command` fields of the stored prompts, in order. -/
def commandsOf (m : Store) : List String :=
  m.map (fun kv => kv.2.command)

/-- Python `s.startswith(p)`. -/
def pyStartsWith (s p : String) : Bool :=
  p.toList.isPrefixOf s.toList

/-- Python `p in s`: substring containment. -/
def containsTok (pat : List Char) : List Char → Bool
  | [] => pat.isPrefixOf []
  | c :: rest => pat.isPrefixOf (c :: rest) || containsTok pat rest

/-- Python `pat in s` at the `String` level. -/
def pyContains (s pat : String) : Bool :=
  containsTok pat.toList s.toList

/-- Python `s.replace(pat, rep)`: replace the leftmost occurrence, continue
after the inserted replacement (non-overlapping).  The fuel argument (the
length of the scanned list suffices, one unit per consumed character) keeps
the recursion structural so that the kernel can evaluate it. -/
def pyReplaceAux (pat rep : List Char) : Nat → List Char → List Char
  | _, [] => []
  | 0, l => l
  | fuel + 1, c :: rest =>
    if pat.isPrefixOf (c :: rest) then
      rep ++ pyReplaceAux pat rep fuel (rest.drop (pat.length - 1))
    else
      c :: pyReplaceAux pat rep fuel rest

/-- Python `s.replace(pat, rep)` at the `String` level. -/
def pyReplace (s pat rep : String) : String :=
  String.mk (pyReplaceAux pat.toList rep.toList s.toList.length s.toList)

/-- Python `s.split(' ', 1)` on the character list: everything before the
first space, and — when a space exists — everything after it. -/
def pySplitSpace1List : List Char → List Char × Option (List Char)
  | [] => ([], none)
  | c :: rest =>
    if c = ' ' then ([], some rest)
    else
      let p := pySplitSpace1List rest
      (c :: p.1, p.2)

/-- Python `parts = text.split(' ', 1)` at the `String` level:
`(parts[0], parts[1] when present)`. -/
def pySplitSpace1 (s : String) : String × Option String :=
  let p := pySplitSpace1List s.toList
  (String.mk p.1, p.2.map String.mk)

/-- The placeholder token of the source (`'\x7binput\x7d'`). -/
def inputToken : String := "{input}"

/-- Lines 157-163 of the source: substitute `user_input` into the matched
prompt content — replace every `\x7binput\x7d` when the token is present and
the input non-empty, else append after a blank line when the input is
non-empty, else keep the content. -/
def applyInput (content user_input : String) : String :=
  if pyContains content inputToken && user_input != "" then
    pyReplace content inputToken user_input
  else if user_input != "" then
    content ++ "\n\n" ++ user_input
  else content

/-- The scan `for prompt in prompts_data.values(): if prompt['command'] ==
command` — first match in iteration order. -/
def findMatch : List Prompt → String → Option Prompt
  | [], _ => none
  | p :: ps, cmd => if p.command = cmd then some p else findMatch ps cmd

/-- `chat_input_modifier(text, visible_text, state)` of the source: on a
slash command with a stored match, both returned strings are the resolved
content; otherwise the arguments pass through unchanged. -/
def chat_input_modifier (store : Store) (text visible_text : String) :
    String × String :=
  if pyStartsWith text "/" then
    let parts := pySplitSpace1 text
    let user_input := parts.2.getD ""
    match findMatch (store.map (fun kv => kv.2)) parts.1 with
    | some p =>
      let c := applyInput p.content user_input
      (c, c)
    | none => (text, visible_text)
  else (text, visible_text)

/-- The spec-level view `resolve(text) -> (resolvedText, matched)` of the
same algorithm: identical scan, with the match outcome made explicit
(the source signals it by returning from inside the loop). -/
def resolve (store : Store) (text : String) : String × Bool :=
  if pyStartsWith text "/" then
    let parts := pySplitSpace1 text
    let user_input := parts.2.getD ""
    match findMatch (store.map (fun kv => kv.2)) parts.1 with
    | some p => (applyInput p.content user_input, true)
    | none => (text, false)
  else (text, false)

/-- Command normalisation of the source: prefix `/` when absent. -/
def normalizeCommand (command : String) : String :=
  if pyStartsWith command "/" then command else "/" ++ command

/-- `save_prompts()`: write the whole in-memory mapping to the file. -/
def save_prompts (st : StoreState) : StoreState :=
  { st with persisted := some st.prompts_data }

/-- `setup()`: load the persisted mapping when the file exists, else start
empty and immediately persist the empty mapping.  (The source's corrupt-file
fallback to an empty dict concerns the JSON parser, outside this model.) -/
def setup (st : StoreState) : StoreState :=
  match st.persisted with
  | some d => { st with prompts_data := d }
  | none => { prompts_data := [], persisted := some [] }

/-- `create_prompt(title, command, content)`: validate non-empty fields,
normalise the command, reject a command held by a prompt under a different
title, then store a fresh record under `title` and persist. -/
def create_prompt (st : StoreState) (now : Nat)
    (title command content : String) : String × StoreState :=
  if title = "" ∨ command = "" ∨ content = "" then
    ("Error: All fields are required", st)
  else
    let command := normalizeCommand command
    if st.prompts_data.any (fun kv => kv.2.command == command && kv.1 != title) then
      ("Error: Command " ++ command ++ " already exists", st)
    else
      let p : Prompt :=
        { title := title, command := command, content := content,
          creator := current_user, created := now, modified := now }
      let data := dictSet st.prompts_data title p
      ("Prompt \x27" ++ title ++ "\x27 created successfully!",
       { prompts_data := data, persisted := some data })

/-- `update_prompt(selected_prompt, title, command, content)`: require an
existing selection and non-empty fields, normalise the command, reject a
command held by a prompt under a different key, rename the key when the
title changed (`prompts_data[title] = prompts_data.pop(selected_prompt)`),
then overwrite `title`/`command`/`content`/`modified` and persist. -/
def update_prompt (st : StoreState) (now : Nat)
    (selected title command content : String) : String × StoreState :=
  if selected = "" ∨ dictGet st.prompts_data selected = none then
    ("Error: Please select a prompt to update", st)
  else if title = "" ∨ command = "" ∨ content = "" then
    ("Error: All fields are required", st)
  else
    let command := normalizeCommand command
    if st.prompts_data.any (fun kv => kv.2.command == command && kv.1 != selected) then
      ("Error: Command " ++ command ++ " already exists", st)
    else
      let popped := (dictGet st.prompts_data selected).getD default
      let data0 :=
        if selected ≠ title then
          dictSet (dictDel st.prompts_data selected) title popped
        else st.prompts_data
      let cur := (dictGet data0 title).getD default
      let updated :=
        { cur with title := title, command := command, content := content,
                   modified := now }
      let data := dictSet data0 title updated
      ("Prompt \x27" ++ title ++ "\x27 updated successfully!",
       { prompts_data := data, persisted := some data })

/-- `delete_prompt(selected_prompt)`: require an existing selection, remove
the entry and persist. -/
def delete_prompt (st : StoreState) (selected : String) : String × StoreState :=
  if selected = "" ∨ dictGet st.prompts_data selected = none then
    ("Error: Please select a prompt to delete", st)
  else
    let data := dictDel st.prompts_data selected
    ("Prompt \x27" ++ selected ++ "\x27 deleted successfully!",
     { prompts_data := data, persisted := some data })

/-- `get_prompts_list()`: the titles, in insertion order. -/
def get_prompts_list (st : StoreState) : List String :=
  keysOf st.prompts_data

/-- A mutating operation of the management surface, with its clock value. -/
inductive StoreOp where
  | create (now : Nat) (title command content : String)
  | update (now : Nat) (selected title command content : String)
  | del (selected : String)

/-- Run one operation, keeping only the state (the status message is
discarded). -/
def applyOp (st : StoreState) : StoreOp → StoreState
  | .create now t c ct => (create_prompt st now t c ct).2
  | .update now s t c ct => (update_prompt st now s t c ct).2
  | .del s => (delete_prompt st s).2

/-- Run a sequence of management operations. -/
def runOps (st : StoreState) (ops : List StoreOp) : StoreState :=
  ops.foldl applyOp st

/-- The representation invariant of a Python dict of prompts together with
the store's command-uniqueness invariant: keys are pairwise distinct (as in
any dict) and no two stored prompts share a `command`. -/
def GoodStore (m : Store) : Prop :=
  (keysOf m).Nodup ∧ (commandsOf m).Nodup

/-- Modelled from the claim wording, for comparison with the code's split:
cut the text at the first whitespace character of any kind
(`Char.isWhitespace`), command before it, remainder after it. -/
def claimSplitAnyWhitespaceList : List Char → List Char × Option (List Char)
  | [] => ([], none)
  | c :: rest =>
    if c.isWhitespace then ([], some rest)
    else
      let p := claimSplitAnyWhitespaceList rest
      (c :: p.1, p.2)

/-- Modelled from the claim wording: the any-whitespace split at the
`String` level. -/
def claimSplitAnyWhitespace (s : String) : String × Option String :=
  let p := claimSplitAnyWhitespaceList s.toList
  (String.mk p.1, p.2.map String.mk)

theorem dictGet_dictSet_self (m : Store) (k : String) (v : Prompt) :
    dictGet (dictSet m k v) k = some v := by
  induction m with
  | nil => simp [dictSet, dictGet]
  | cons kv rest ih =>
    obtain ⟨k1, v1⟩ := kv
    by_cases h : k1 = k
    · simp [dictSet, dictGet, h]
    · simp [dictSet, dictGet, h, ih]

theorem dictGet_dictSet_ne (m : Store) (k : String) (v : Prompt) (k1 : String)
    (h : k1 ≠ k) : dictGet (dictSet m k v) k1 = dictGet m k1 := by
  induction m with
  | nil => simp [dictSet, dictGet, Ne.symm h]
  | cons kv rest ih =>
    obtain ⟨k2, v2⟩ := kv
    by_cases h2 : k2 = k
    · subst h2
      simp [dictSet, dictGet, Ne.symm h]
    · by_cases h3 : k2 = k1 <;>
        simp [dictSet, dictGet, h2, h3, h, Ne.symm h, ih]

theorem mem_of_dictGet (m : Store) (k : String) (v : Prompt)
    (h : dictGet m k = some v) : (k, v) ∈ m := by
  induction m with
  | nil => simp [dictGet] at h
  | cons kv rest ih =>
    obtain ⟨k1, v1⟩ := kv
    by_cases h1 : k1 = k
    · subst h1
      simp [dictGet] at h
      simp [h]
    · simp [dictGet, h1] at h
      exact List.mem_cons_of_mem _ (ih h)

theorem dictDel_sublist (m : Store) (k : String) : (dictDel m k).Sublist m := by
  induction m with
  | nil => simp [dictDel]
  | cons kv rest ih =>
    obtain ⟨k1, v1⟩ := kv
    by_cases h : k1 = k
    · simp only [dictDel, if_pos h]
      exact List.sublist_cons_self _ _
    · simp only [dictDel, if_neg h]
      exact ih.cons₂ (k1, v1)

theorem key_ne_of_mem_dictDel (m : Store) (k : String) (kv : String × Prompt)
    (hk : (keysOf m).Nodup) (h : kv ∈ dictDel m k) : kv.1 ≠ k := by
  induction m with
  | nil => simp [dictDel] at h
  | cons kv1 rest ih =>
    obtain ⟨k1, v1⟩ := kv1
    simp only [keysOf, List.map_cons, List.nodup_cons] at hk
    by_cases h1 : k1 = k
    · subst h1
      simp only [dictDel, if_pos rfl] at h
      intro hkv
      exact hk.1 (hkv ▸ List.mem_map_of_mem (fun p => p.1) h)
    · simp only [dictDel, if_neg h1] at h
      rcases List.mem_cons.mp h with h2 | h2
      · subst h2; exact h1
      · exact ih hk.2 h2

theorem dictGet_dictDel_self (m : Store) (k : String)
    (hk : (keysOf m).Nodup) : dictGet (dictDel m k) k = none := by
  induction m with
  | nil => simp [dictDel, dictGet]
  | cons kv rest ih =>
    obtain ⟨k1, v1⟩ := kv
    simp only [keysOf, List.map_cons, List.nodup_cons] at hk
    by_cases h1 : k1 = k
    · subst h1
      simp only [dictDel, if_pos rfl]
      cases hv : dictGet rest k1 with
      | none => exact hv
      | some w =>
        exact absurd (List.mem_map_of_mem (fun p => p.1) (mem_of_dictGet _ _ _ hv)) hk.1
    · simp [dictDel, dictGet, h1, ih hk.2]

theorem mem_dictSet_cases (m : Store) (k : String) (v : Prompt)
    (kv : String × Prompt) (h : kv ∈ dictSet m k v) : kv = (k, v) ∨ kv ∈ m := by
  induction m with
  | nil => simp [dictSet] at h; simp [h]
  | cons kv1 rest ih =>
    obtain ⟨k1, v1⟩ := kv1
    by_cases h1 : k1 = k
    · simp only [dictSet, if_pos h1] at h
      rcases List.mem_cons.mp h with h2 | h2
      · exact Or.inl h2
      · exact Or.inr (List.mem_cons_of_mem _ h2)
    · simp only [dictSet, if_neg h1] at h
      rcases List.mem_cons.mp h with h2 | h2
      · exact Or.inr (h2 ▸ List.mem_cons_self _ _)
      · rcases ih h2 with h3 | h3
        · exact Or.inl h3
        · exact Or.inr (List.mem_cons_of_mem _ h3)

theorem mem_keysOf_dictSet (m : Store) (k : String) (v : Prompt) (a : String)
    (h : a ∈ keysOf (dictSet m k v)) : a = k ∨ a ∈ keysOf m := by
  simp only [keysOf, List.mem_map] at h
  obtain ⟨kv, hkv, hka⟩ := h
  rcases mem_dictSet_cases m k v kv hkv with h1 | h1
  · left; rw [← hka, h1]
  · right; exact hka ▸ List.mem_map_of_mem _ h1

theorem mem_commandsOf_dictSet (m : Store) (k : String) (v : Prompt) (c : String)
    (h : c ∈ commandsOf (dictSet m k v)) : c = v.command ∨ c ∈ commandsOf m := by
  simp only [commandsOf, List.mem_map] at h
  obtain ⟨kv, hkv, hc⟩ := h
  rcases mem_dictSet_cases m k v kv hkv with h1 | h1
  · left; rw [← hc, h1]
  · right; exact hc ▸ List.mem_map_of_mem _ h1

theorem guard_of_any_eq_false (m : Store) (cmd t : String)
    (h : ¬ m.any (fun kv => kv.2.command == cmd && kv.1 != t) = true) :
    ∀ kv ∈ m, kv.2.command = cmd → kv.1 = t := by
  intro kv hkv hcmd
  by_contra hne
  exact h (List.any_eq_true.mpr ⟨kv, hkv, by simp [hcmd, hne]⟩)

theorem any_eq_false_of_guard (m : Store) (cmd t : String)
    (h : ∀ kv ∈ m, kv.2.command = cmd → kv.1 = t) :
    ¬ m.any (fun kv => kv.2.command == cmd && kv.1 != t) = true := by
  intro hcon
  obtain ⟨kv, hkv, hp⟩ := List.any_eq_true.mp hcon
  simp only [Bool.and_eq_true, beq_iff_eq, bne_iff_ne] at hp
  exact hp.2 (h kv hkv hp.1)


theorem dictSet_cons_pos (k1 k : String) (v1 v : Prompt) (rest : Store)
    (h : k1 = k) : dictSet ((k1, v1) :: rest) k v = (k, v) :: rest := by
  simp [dictSet, h]

theorem dictSet_cons_neg (k1 k : String) (v1 v : Prompt) (rest : Store)
    (h : k1 ≠ k) :
    dictSet ((k1, v1) :: rest) k v = (k1, v1) :: dictSet rest k v := by
  simp [dictSet, h]

theorem dictDel_cons_pos (k1 k : String) (v1 : Prompt) (rest : Store)
    (h : k1 = k) : dictDel ((k1, v1) :: rest) k = rest := by
  simp [dictDel, h]

theorem dictDel_cons_neg (k1 k : String) (v1 : Prompt) (rest : Store)
    (h : k1 ≠ k) : dictDel ((k1, v1) :: rest) k = (k1, v1) :: dictDel rest k := by
  simp [dictDel, h]

theorem dictGet_cons_pos (k1 k : String) (v1 : Prompt) (rest : Store)
    (h : k1 = k) : dictGet ((k1, v1) :: rest) k = some v1 := by
  simp [dictGet, h]

theorem dictGet_cons_neg (k1 k : String) (v1 : Prompt) (rest : Store)
    (h : k1 ≠ k) : dictGet ((k1, v1) :: rest) k = dictGet rest k := by
  simp [dictGet, h]

theorem goodStore_dictSet (m : Store) (k : String) (v : Prompt)
    (hg : GoodStore m) (hguard : ∀ kv ∈ m, kv.2.command = v.command → kv.1 = k) :
    GoodStore (dictSet m k v) := by
  induction m with
  | nil => constructor <;> simp [dictSet, keysOf, commandsOf]
  | cons kv1 rest ih =>
    obtain ⟨k1, v1⟩ := kv1
    obtain ⟨hk, hc⟩ := hg
    simp only [keysOf, commandsOf, List.map_cons, List.nodup_cons] at hk hc
    by_cases h1 : k1 = k
    · rw [dictSet_cons_pos k1 k v1 v rest h1]
      subst h1
      refine ⟨?_, ?_⟩
      · simp only [keysOf, List.map_cons, List.nodup_cons]
        exact ⟨hk.1, hk.2⟩
      · simp only [commandsOf, List.map_cons, List.nodup_cons]
        refine ⟨?_, hc.2⟩
        intro hmem
        obtain ⟨kv, hkvmem, hkvcmd⟩ := List.mem_map.mp hmem
        have hk1 := hguard kv (List.mem_cons_of_mem _ hkvmem) hkvcmd
        exact hk.1 (hk1 ▸ List.mem_map_of_mem (fun p => p.1) hkvmem)
    · rw [dictSet_cons_neg k1 k v1 v rest h1]
      have ihg : GoodStore (dictSet rest k v) :=
        ih ⟨hk.2, hc.2⟩ (fun kv hkv => hguard kv (List.mem_cons_of_mem _ hkv))
      obtain ⟨ihk, ihc⟩ := ihg
      refine ⟨?_, ?_⟩
      · simp only [keysOf, List.map_cons, List.nodup_cons]
        refine ⟨?_, ihk⟩
        intro hmem
        rcases mem_keysOf_dictSet rest k v k1 hmem with h2 | h2
        · exact h1 h2
        · exact hk.1 h2
      · simp only [commandsOf, List.map_cons, List.nodup_cons]
        refine ⟨?_, ihc⟩
        intro hmem
        rcases mem_commandsOf_dictSet rest k v v1.command hmem with h2 | h2
        · exact h1 (hguard (k1, v1) (List.mem_cons_self _ _) h2)
        · exact hc.1 h2

theorem goodStore_dictDel (m : Store) (k : String) (hg : GoodStore m) :
    GoodStore (dictDel m k) := by
  obtain ⟨hk, hc⟩ := hg
  have hs := dictDel_sublist m k
  simp only [GoodStore, keysOf, commandsOf] at *
  exact ⟨hk.sublist (hs.map fun kv => kv.1),
         hc.sublist (hs.map fun kv => kv.2.command)⟩

theorem command_notin_dictDel (m : Store) (k : String) (v : Prompt)
    (hg : GoodStore m) (hget : dictGet m k = some v) :
    ∀ kv ∈ dictDel m k, kv.2.command ≠ v.command := by
  induction m with
  | nil => simp [dictGet] at hget
  | cons kv1 rest ih =>
    obtain ⟨k1, v1⟩ := kv1
    obtain ⟨hk, hc⟩ := hg
    simp only [keysOf, commandsOf, List.map_cons, List.nodup_cons] at hk hc
    by_cases h1 : k1 = k
    · rw [dictGet_cons_pos k1 k v1 rest h1] at hget
      rw [dictDel_cons_pos k1 k v1 rest h1]
      obtain rfl : v1 = v := Option.some.injEq _ _ ▸ hget
      intro kv hkv hcmd
      exact hc.1 (hcmd ▸ List.mem_map_of_mem (fun p => p.2.command) hkv)
    · rw [dictGet_cons_neg k1 k v1 rest h1] at hget
      rw [dictDel_cons_neg k1 k v1 rest h1]
      intro kv hkv
      rcases List.mem_cons.mp hkv with h2 | h2
      · subst h2
        intro hcmd
        exact hc.1 (hcmd ▸
          List.mem_map_of_mem (fun p => p.2.command) (mem_of_dictGet rest k v hget))
      · exact ih ⟨hk.2, hc.2⟩ hget kv h2

theorem goodStore_create (st : StoreState) (now : Nat) (t c ct : String)
    (hg : GoodStore st.prompts_data) :
    GoodStore ((create_prompt st now t c ct).2).prompts_data := by
  unfold create_prompt
  by_cases h1 : t = "" ∨ c = "" ∨ ct = ""
  · simp only [if_pos h1]
    exact hg
  · simp only [if_neg h1]
    by_cases h2 : st.prompts_data.any
        (fun kv => kv.2.command == normalizeCommand c && kv.1 != t) = true
    · simp only [h2, if_true]
      exact hg
    · simp only [h2, if_false]
      exact goodStore_dictSet st.prompts_data t _ hg
        (guard_of_any_eq_false st.prompts_data (normalizeCommand c) t
          (by simp [h2]))

theorem goodStore_update (st : StoreState) (now : Nat) (s t c ct : String)
    (hg : GoodStore st.prompts_data) :
    GoodStore ((update_prompt st now s t c ct).2).prompts_data := by
  unfold update_prompt
  by_cases h1 : s = "" ∨ dictGet st.prompts_data s = none
  · simp only [if_pos h1]
    exact hg
  · simp only [if_neg h1]
    by_cases h2 : t = "" ∨ c = "" ∨ ct = ""
    · simp only [if_pos h2]
      exact hg
    · simp only [if_neg h2]
      by_cases h3 : st.prompts_data.any
          (fun kv => kv.2.command == normalizeCommand c && kv.1 != s) = true
      · simp only [h3, if_true]
        exact hg
      · simp only [h3, if_false]
        push_neg at h1
        obtain ⟨v, hv⟩ := Option.ne_none_iff_exists'.mp h1.2
        have hguard := guard_of_any_eq_false st.prompts_data (normalizeCommand c) s
          (by simp [h3])
        by_cases h4 : s = t
        · subst h4
          rw [if_neg (by simp : ¬ s ≠ s)]
          exact goodStore_dictSet st.prompts_data s _ hg hguard
        · rw [if_pos h4]
          rw [hv]
          simp only [Option.getD_some]
          have hgd : GoodStore (dictDel st.prompts_data s) :=
            goodStore_dictDel st.prompts_data s hg
          have hnotin := command_notin_dictDel st.prompts_data s v hg hv
          have hg0 : GoodStore (dictSet (dictDel st.prompts_data s) t v) :=
            goodStore_dictSet _ t v hgd
              (fun kv hkv hcmd => absurd hcmd (hnotin kv hkv))
          refine goodStore_dictSet _ t _ hg0 ?_
          intro kv hkv hcmd
          rcases mem_dictSet_cases _ t v kv hkv with h5 | h5
          · rw [h5]
          · have h6 := hguard kv ((dictDel_sublist st.prompts_data s).subset h5) hcmd
            exact absurd h6 (key_ne_of_mem_dictDel st.prompts_data s kv hg.1 h5)

theorem goodStore_delete (st : StoreState) (s : String)
    (hg : GoodStore st.prompts_data) :
    GoodStore ((delete_prompt st s).2).prompts_data := by
  unfold delete_prompt
  by_cases h1 : s = "" ∨ dictGet st.prompts_data s = none
  · simp only [if_pos h1]
    exact hg
  · simp only [if_neg h1]
    exact goodStore_dictDel st.prompts_data s hg

theorem goodStore_applyOp (st : StoreState) (op : StoreOp)
    (hg : GoodStore st.prompts_data) :
    GoodStore ((applyOp st op).prompts_data) := by
  cases op with
  | create now t c ct => exact goodStore_create st now t c ct hg
  | update now s t c ct => exact goodStore_update st now s t c ct hg
  | del s => exact goodStore_delete st s hg

theorem goodStore_runOps (st : StoreState) (ops : List StoreOp)
    (hg : GoodStore st.prompts_data) :
    GoodStore ((runOps st ops).prompts_data) := by
  induction ops generalizing st with
  | nil => exact hg
  | cons op rest ih =>
    exact ih (applyOp st op) (goodStore_applyOp st op hg)

theorem findMatch_eq_some (l : List Prompt) (cmd : String) (p : Prompt)
    (hnd : (l.map Prompt.command).Nodup) (hp : p ∈ l) (hcmd : p.command = cmd) :
    findMatch l cmd = some p := by
  induction l with
  | nil => simp at hp
  | cons q rest ih =>
    simp only [List.map_cons, List.nodup_cons] at hnd
    rcases List.mem_cons.mp hp with h1 | h1
    · subst h1
      simp [findMatch, hcmd]
    · by_cases h2 : q.command = cmd
      · exact absurd
          (by rw [h2, ← hcmd]; exact List.mem_map_of_mem Prompt.command h1)
          hnd.1
      · simp only [findMatch, if_neg h2]
        exact ih hnd.2 h1

theorem findMatch_mem (l : List Prompt) (cmd : String) (p : Prompt)
    (h : findMatch l cmd = some p) : p ∈ l ∧ p.command = cmd := by
  induction l with
  | nil => simp [findMatch] at h
  | cons q rest ih =>
    by_cases h1 : q.command = cmd
    · simp only [findMatch, if_pos h1, Option.some.injEq] at h
      subst h
      exact ⟨List.mem_cons_self _ _, h1⟩
    · simp only [findMatch, if_neg h1] at h
      obtain ⟨hm, hc⟩ := ih h
      exact ⟨List.mem_cons_of_mem _ hm, hc⟩

theorem findMatch_isSome_iff (l : List Prompt) (cmd : String) :
    (findMatch l cmd).isSome = true ↔ ∃ p ∈ l, p.command = cmd := by
  induction l with
  | nil => simp [findMatch]
  | cons q rest ih =>
    by_cases h1 : q.command = cmd
    · simp only [findMatch, if_pos h1, Option.isSome_some, true_iff]
      exact ⟨q, List.mem_cons_self _ _, h1⟩
    · simp only [findMatch, if_neg h1]
      rw [ih]
      constructor
      · rintro ⟨p, hp, hc⟩
        exact ⟨p, List.mem_cons_of_mem _ hp, hc⟩
      · rintro ⟨p, hp, hc⟩
        rcases List.mem_cons.mp hp with h2 | h2
        · exact absurd (h2 ▸ hc) h1
        · exact ⟨p, h2, hc⟩

theorem pySplitSpace1List_cons_space (rest : List Char) :
    pySplitSpace1List (' ' :: rest) = ([], some rest) := by
  simp [pySplitSpace1List]

theorem pySplitSpace1List_cons_ne (c : Char) (rest : List Char) (h : c ≠ ' ') :
    pySplitSpace1List (c :: rest) =
      (c :: (pySplitSpace1List rest).1, (pySplitSpace1List rest).2) := by
  simp [pySplitSpace1List, h]

theorem pySplitSpace1List_no_space (l : List Char) :
    ' ' ∉ (pySplitSpace1List l).1 := by
  induction l with
  | nil => simp [pySplitSpace1List]
  | cons c rest ih =>
    by_cases h : c = ' '
    · subst h
      rw [pySplitSpace1List_cons_space]
      simp
    · rw [pySplitSpace1List_cons_ne c rest h]
      simp only [List.mem_cons, not_or]
      exact ⟨fun he => h he.symm, ih⟩

theorem pySplitSpace1List_none (l : List Char)
    (h : (pySplitSpace1List l).2 = none) : (pySplitSpace1List l).1 = l := by
  induction l with
  | nil => simp [pySplitSpace1List]
  | cons c rest ih =>
    by_cases hc : c = ' '
    · subst hc
      rw [pySplitSpace1List_cons_space] at h
      simp at h
    · rw [pySplitSpace1List_cons_ne c rest hc] at h ⊢
      simp only at h
      simp only [List.cons.injEq, true_and]
      exact ih h

theorem pySplitSpace1List_some (l r : List Char)
    (h : (pySplitSpace1List l).2 = some r) :
    l = (pySplitSpace1List l).1 ++ ' ' :: r := by
  induction l with
  | nil => simp [pySplitSpace1List] at h
  | cons c rest ih =>
    by_cases hc : c = ' '
    · subst hc
      rw [pySplitSpace1List_cons_space] at h ⊢
      simp only [Option.some.injEq] at h
      subst h
      simp
    · rw [pySplitSpace1List_cons_ne c rest hc] at h ⊢
      simp only at h
      simp only [List.cons_append, List.cons.injEq, true_and]
      exact ih h

theorem resolve_match (store : Store) (text : String) (p : Prompt)
    (hstart : pyStartsWith text "/" = true)
    (hfind : findMatch (store.map fun kv => kv.2) (pySplitSpace1 text).1 = some p) :
    resolve store text =
      (applyInput p.content ((pySplitSpace1 text).2.getD ""), true) := by
  simp only [resolve]
  rw [if_pos hstart, hfind]

theorem applyInput_replace (content user_input : String)
    (htok : pyContains content inputToken = true) (hne : user_input ≠ "") :
    applyInput content user_input = pyReplace content inputToken user_input := by
  simp [applyInput, htok, hne]

theorem applyInput_append (content user_input : String)
    (htok : pyContains content inputToken = false) (hne : user_input ≠ "") :
    applyInput content user_input = content ++ "\n\n" ++ user_input := by
  simp [applyInput, htok, hne]

/-- Claim C1: for every store snapshot containing a prompt whose command
equals the command part of the input and every non-empty remainder, if the
prompt's content contains the token `\x7binput\x7d` then resolve returns the
content with every occurrence of the token replaced by the remainder, and
matched = true. -/
theorem c1_placeholder_substitution (store : Store) (text cmd rem : String)
    (p : Prompt)
    (hnd : (commandsOf store).Nodup)
    (hp : p ∈ store.map (fun kv => kv.2))
    (hcmd : p.command = cmd)
    (hstart : pyStartsWith text "/" = true)
    (hsplit : pySplitSpace1 text = (cmd, some rem))
    (hrem : rem ≠ "")
    (htok : pyContains p.content inputToken = true) :
    resolve store text = (pyReplace p.content inputToken rem, true) := by
  have hnd2 : ((store.map fun kv => kv.2).map Prompt.command).Nodup := by
    simpa [commandsOf, List.map_map, Function.comp] using hnd
  have hfind := findMatch_eq_some (store.map fun kv => kv.2) (pySplitSpace1 text).1 p
    hnd2 hp (by rw [hsplit]; exact hcmd)
  rw [resolve_match store text p hstart hfind, hsplit]
  simp only [Option.getD_some]
  rw [applyInput_replace p.content rem htok hrem]

theorem c1_witness :
    (commandsOf [("t1", ⟨"t1", "/foo", "Hello {input}!", "u", 0, 0⟩)]).Nodup ∧
    pySplitSpace1 "/foo bar" = ("/foo", some "bar") ∧
    resolve [("t1", ⟨"t1", "/foo", "Hello {input}!", "u", 0, 0⟩)] "/foo bar" =
      ("Hello bar!", true) := by
  refine ⟨by decide, by decide, ?_⟩
  have h := c1_placeholder_substitution
    [("t1", ⟨"t1", "/foo", "Hello {input}!", "u", 0, 0⟩)] "/foo bar" "/foo" "bar"
    ⟨"t1", "/foo", "Hello {input}!", "u", 0, 0⟩
    (by decide) (by decide) (by decide) (by decide) (by decide) (by decide) (by decide)
  rw [h]
  decide

/-- Claim C2, counterexample: the claim says the input is split at the first
whitespace character of any kind; the code splits only at a space character.
On the input containing a tab, the any-whitespace split yields the command
part `/foo`, which is a stored command, yet the code leaves the text
unsplit and resolves to no match. -/
theorem c2_split_counterexample :
    claimSplitAnyWhitespace "/foo\tbar" = ("/foo", some "bar") ∧
    pySplitSpace1 "/foo\tbar" = ("/foo\tbar", none) ∧
    resolve [("t1", ⟨"t1", "/foo", "Hello", "u", 0, 0⟩)] "/foo\tbar" =
      ("/foo\tbar", false) := by decide

/-- Claim C2 (amended): for every input text that starts with a slash,
resolve splits it at the first space character (not at whitespace of other
kinds): the command part contains no space, equals the whole text when no
space exists, and when a space exists the text is the command part, the
space, then the remainder; matching of the command part against stored
commands is exact case-sensitive string equality. -/
theorem c2_amended_space_split_exact_match (store : Store) (text : String)
    (hstart : pyStartsWith text "/" = true) :
    ' ' ∉ (pySplitSpace1 text).1.toList ∧
    ((pySplitSpace1 text).2 = none → (pySplitSpace1 text).1 = text) ∧
    (∀ r, (pySplitSpace1 text).2 = some r →
      text.toList = (pySplitSpace1 text).1.toList ++ ' ' :: r.toList) ∧
    ((resolve store text).2 = true ↔
      ∃ p ∈ store.map (fun kv => kv.2), p.command = (pySplitSpace1 text).1) := by
  refine ⟨?_, ?_, ?_, ?_⟩
  · exact pySplitSpace1List_no_space text.toList
  · intro h
    have h1 : (pySplitSpace1List text.toList).2 = none := by
      simpa [pySplitSpace1] using h
    show String.mk (pySplitSpace1List text.toList).1 = text
    rw [pySplitSpace1List_none text.toList h1]
    exact rfl
  · intro r hr
    have h1 : ∃ rl, (pySplitSpace1List text.toList).2 = some rl ∧
        String.mk rl = r := by
      simpa [pySplitSpace1, Option.map_eq_some'] using hr
    obtain ⟨rl, h2, h3⟩ := h1
    subst h3
    exact pySplitSpace1List_some text.toList rl h2
  · have hiff := findMatch_isSome_iff (store.map fun kv => kv.2)
      (pySplitSpace1 text).1
    simp only [resolve]
    rw [if_pos hstart]
    cases hm : findMatch (store.map fun kv => kv.2) (pySplitSpace1 text).1 with
    | none =>
      rw [hm] at hiff
      simp only [Option.isSome_none] at hiff
      simpa using hiff
    | some p =>
      rw [hm] at hiff
      simp only [Option.isSome_some] at hiff
      simpa using hiff

theorem c2_witness :
    pyStartsWith "/sum hi" "/" = true ∧
    (' ' ∉ (pySplitSpace1 "/sum hi").1.toList ∧
     ((pySplitSpace1 "/sum hi").2 = none → (pySplitSpace1 "/sum hi").1 = "/sum hi") ∧
     (∀ r, (pySplitSpace1 "/sum hi").2 = some r →
       ("/sum hi" : String).toList =
         (pySplitSpace1 "/sum hi").1.toList ++ ' ' :: r.toList) ∧
     ((resolve [("t", ⟨"t", "/sum", "S", "u", 0, 0⟩)] "/sum hi").2 = true ↔
       ∃ p ∈ [("t", (⟨"t", "/sum", "S", "u", 0, 0⟩ : Prompt))].map (fun kv => kv.2),
         p.command = (pySplitSpace1 "/sum hi").1)) :=
  ⟨by decide,
   c2_amended_space_split_exact_match [("t", ⟨"t", "/sum", "S", "u", 0, 0⟩)]
     "/sum hi" (by decide)⟩

/-- Claim C3: for every store snapshot containing a prompt whose command
equals the command part of the input and every non-empty remainder, if the
prompt's content does not contain the placeholder token then resolve
returns the content, a blank line, then the remainder, with matched = true. -/
theorem c3_append_fallback (store : Store) (text cmd rem : String) (p : Prompt)
    (hnd : (commandsOf store).Nodup)
    (hp : p ∈ store.map (fun kv => kv.2))
    (hcmd : p.command = cmd)
    (hstart : pyStartsWith text "/" = true)
    (hsplit : pySplitSpace1 text = (cmd, some rem))
    (hrem : rem ≠ "")
    (htok : pyContains p.content inputToken = false) :
    resolve store text = (p.content ++ "\n\n" ++ rem, true) := by
  have hnd2 : ((store.map fun kv => kv.2).map Prompt.command).Nodup := by
    simpa [commandsOf, List.map_map, Function.comp] using hnd
  have hfind := findMatch_eq_some (store.map fun kv => kv.2) (pySplitSpace1 text).1 p
    hnd2 hp (by rw [hsplit]; exact hcmd)
  rw [resolve_match store text p hstart hfind, hsplit]
  simp only [Option.getD_some]
  rw [applyInput_append p.content rem htok hrem]

theorem c3_witness :
    (commandsOf [("t1", ⟨"t1", "/foo", "Summarize:", "u", 0, 0⟩)]).Nodup ∧
    pyContains "Summarize:" inputToken = false ∧
    resolve [("t1", ⟨"t1", "/foo", "Summarize:", "u", 0, 0⟩)] "/foo bar" =
      ("Summarize:\n\nbar", true) := by
  refine ⟨by decide, by decide, ?_⟩
  have h := c3_append_fallback
    [("t1", ⟨"t1", "/foo", "Summarize:", "u", 0, 0⟩)] "/foo bar" "/foo" "bar"
    ⟨"t1", "/foo", "Summarize:", "u", 0, 0⟩
    (by decide) (by decide) (by decide) (by decide) (by decide) (by decide) (by decide)
  rw [h]
  decide

/-- Claim C4: starting from any mapping with pairwise-distinct keys (a
dict) in which no two prompts hold the same command, every sequence of
create, update and delete operations — succeeding or failing — leaves a
mapping in which at most one prompt holds any given command. -/
theorem c4_command_uniqueness_invariant (st : StoreState) (ops : List StoreOp)
    (hk : (keysOf st.prompts_data).Nodup)
    (hc : (commandsOf st.prompts_data).Nodup) :
    (commandsOf ((runOps st ops).prompts_data)).Nodup :=
  (goodStore_runOps st ops ⟨hk, hc⟩).2

theorem c4_witness :
    (keysOf (⟨[], none⟩ : StoreState).prompts_data).Nodup ∧
    (commandsOf (⟨[], none⟩ : StoreState).prompts_data).Nodup ∧
    (commandsOf ((runOps ⟨[], none⟩
      [StoreOp.create 1 "A" "a" "x", StoreOp.create 2 "B" "a" "y",
       StoreOp.update 3 "A" "C" "c" "z", StoreOp.del "X"]).prompts_data)).Nodup :=
  ⟨by decide, by decide,
   c4_command_uniqueness_invariant ⟨[], none⟩
     [StoreOp.create 1 "A" "a" "x", StoreOp.create 2 "B" "a" "y",
      StoreOp.update 3 "A" "C" "c" "z", StoreOp.del "X"]
     (by decide) (by decide)⟩

/-- Claim C5: creating a prompt whose normalized command equals the
command of an already-stored prompt under a different title fails with the
duplicate-command error, for any mix of leading-slash presence in the raw
command, and the store still holds only the first prompt, unchanged. -/
theorem c5_duplicate_command_error (st : StoreState) (now : Nat)
    (t1 t2 c2 content : String) (p1 : Prompt)
    (hstore : st.prompts_data = [(t1, p1)])
    (ht : t2 ≠ t1) (ht2 : t2 ≠ "") (hc2 : c2 ≠ "") (hct : content ≠ "")
    (hdup : p1.command = normalizeCommand c2) :
    create_prompt st now t2 c2 content =
      ("Error: Command " ++ normalizeCommand c2 ++ " already exists", st) := by
  have hany : st.prompts_data.any
      (fun kv => kv.2.command == normalizeCommand c2 && kv.1 != t2) = true := by
    rw [hstore]
    simp [hdup, bne_iff_ne, Ne.symm ht]
  unfold create_prompt
  rw [if_neg (by simp [ht2, hc2, hct] : ¬(t2 = "" ∨ c2 = "" ∨ content = ""))]
  rw [if_pos hany]

theorem c5_witness :
    (⟨[("a", ⟨"a", "/x", "C", "default_user", 0, 0⟩)], none⟩ : StoreState).prompts_data =
      [("a", ⟨"a", "/x", "C", "default_user", 0, 0⟩)] ∧
    ("b" : String) ≠ "a" ∧
    (⟨"a", "/x", "C", "default_user", 0, 0⟩ : Prompt).command = normalizeCommand "x" ∧
    create_prompt ⟨[("a", ⟨"a", "/x", "C", "default_user", 0, 0⟩)], none⟩ 7 "b" "x" "D" =
      ("Error: Command " ++ normalizeCommand "x" ++ " already exists",
       ⟨[("a", ⟨"a", "/x", "C", "default_user", 0, 0⟩)], none⟩) :=
  ⟨by decide, by decide, by decide,
   c5_duplicate_command_error ⟨[("a", ⟨"a", "/x", "C", "default_user", 0, 0⟩)], none⟩
     7 "a" "b" "x" "D" ⟨"a", "/x", "C", "default_user", 0, 0⟩
     (by decide) (by decide) (by decide) (by decide) (by decide) (by decide)⟩

/-- Claim C6: for every store state, create with an empty title, command or
content fails with the validation error and leaves both the in-memory
mapping and the persisted storage exactly as they were. -/
theorem c6_validation_error_empty_fields (st : StoreState) (now : Nat)
    (title command content : String)
    (h : title = "" ∨ command = "" ∨ content = "") :
    (create_prompt st now title command content).1 =
      "Error: All fields are required" ∧
    ((create_prompt st now title command content).2).prompts_data =
      st.prompts_data ∧
    ((create_prompt st now title command content).2).persisted = st.persisted := by
  unfold create_prompt
  rw [if_pos h]
  exact ⟨rfl, rfl, rfl⟩

theorem c6_witness :
    (("" : String) = "" ∨ ("c" : String) = "" ∨ ("x" : String) = "") ∧
    ((create_prompt ⟨[("T", ⟨"T", "/t", "B", "u", 1, 2⟩)],
        some [("T", ⟨"T", "/t", "B", "u", 1, 2⟩)]⟩ 9 "" "c" "x").1 =
      "Error: All fields are required" ∧
     ((create_prompt ⟨[("T", ⟨"T", "/t", "B", "u", 1, 2⟩)],
        some [("T", ⟨"T", "/t", "B", "u", 1, 2⟩)]⟩ 9 "" "c" "x").2).prompts_data =
      [("T", ⟨"T", "/t", "B", "u", 1, 2⟩)] ∧
     ((create_prompt ⟨[("T", ⟨"T", "/t", "B", "u", 1, 2⟩)],
        some [("T", ⟨"T", "/t", "B", "u", 1, 2⟩)]⟩ 9 "" "c" "x").2).persisted =
      some [("T", ⟨"T", "/t", "B", "u", 1, 2⟩)]) :=
  ⟨Or.inl rfl,
   c6_validation_error_empty_fields
     ⟨[("T", ⟨"T", "/t", "B", "u", 1, 2⟩)], some [("T", ⟨"T", "/t", "B", "u", 1, 2⟩)]⟩
     9 "" "c" "x" (Or.inl rfl)⟩

/-- Claim C7, counterexample: the claim says that when no command matches,
both returned values equal the original input text; the code returns the
visible-text argument unchanged as the second component, which differs from
the input text here. -/
theorem c7_visible_text_counterexample :
    chat_input_modifier [] "hello" "world" = ("hello", "world") ∧
    resolve [] "hello" = ("hello", false) ∧
    ("world" : String) ≠ "hello" := by decide

/-- Claim C7 (amended): for every input text and visible-text argument,
when a stored command matches, both returned values equal the resolved
content; when no command matches (including when the text does not start
with a slash), the first returned value is the original input text and the
second is the original visible-text argument, each unchanged. -/
theorem c7_amended_contract (store : Store) (text visible_text : String) :
    chat_input_modifier store text visible_text =
      if (resolve store text).2 then
        ((resolve store text).1, (resolve store text).1)
      else (text, visible_text) := by
  simp only [chat_input_modifier, resolve]
  by_cases hs : pyStartsWith text "/" = true
  · rw [if_pos hs, if_pos hs]
    cases hm : findMatch (store.map fun kv => kv.2) (pySplitSpace1 text).1 with
    | none => simp
    | some p => simp
  · rw [if_neg hs, if_neg hs]
    simp

/-- Claim C8: for every stored prompt under key `selected` and every valid
update that renames it to a fresh title, the old key is gone, the prompt is
retrievable under the new title with `creator` and `created` preserved,
`modified` set to the update time, and title, command and content replaced
by the new arguments. -/
theorem c8_rename_rekeys (st : StoreState) (now : Nat)
    (selected title command content : String) (v : Prompt)
    (hk : (keysOf st.prompts_data).Nodup)
    (hsel : dictGet st.prompts_data selected = some v)
    (hselne : selected ≠ "")
    (hnew : dictGet st.prompts_data title = none)
    (ht : title ≠ "") (hc : command ≠ "") (hct : content ≠ "")
    (hnodup : ∀ kv ∈ st.prompts_data,
      kv.2.command = normalizeCommand command → kv.1 = selected) :
    dictGet ((update_prompt st now selected title command content).2).prompts_data
      selected = none ∧
    dictGet ((update_prompt st now selected title command content).2).prompts_data
      title =
      some ⟨title, normalizeCommand command, content, v.creator, v.created, now⟩ := by
  have hne : selected ≠ title := by
    intro he
    rw [he, hnew] at hsel
    exact Option.noConfusion hsel
  have hany := any_eq_false_of_guard st.prompts_data (normalizeCommand command)
    selected hnodup
  unfold update_prompt
  rw [if_neg (by simp [hselne, hsel] :
    ¬(selected = "" ∨ dictGet st.prompts_data selected = none))]
  rw [if_neg (by simp [ht, hc, hct] : ¬(title = "" ∨ command = "" ∨ content = ""))]
  rw [if_neg hany]
  simp only [ne_eq, hne, not_false_eq_true, if_true, hsel, Option.getD_some,
    dictGet_dictSet_self]
  constructor
  · rw [dictGet_dictSet_ne _ _ _ selected hne,
      dictGet_dictSet_ne _ _ _ selected hne]
    exact dictGet_dictDel_self st.prompts_data selected hk
  · trivial

theorem c8_witness :
    (keysOf [("Old", (⟨"Old", "/a", "A", "alice", 1, 2⟩ : Prompt)),
             ("K", ⟨"K", "/k", "B", "bob", 3, 4⟩)]).Nodup ∧
    dictGet [("Old", ⟨"Old", "/a", "A", "alice", 1, 2⟩),
             ("K", ⟨"K", "/k", "B", "bob", 3, 4⟩)] "New" = none ∧
    (∀ kv ∈ [("Old", (⟨"Old", "/a", "A", "alice", 1, 2⟩ : Prompt)),
             ("K", ⟨"K", "/k", "B", "bob", 3, 4⟩)],
       kv.2.command = normalizeCommand "b" → kv.1 = "Old") ∧
    dictGet ((update_prompt ⟨[("Old", ⟨"Old", "/a", "A", "alice", 1, 2⟩),
        ("K", ⟨"K", "/k", "B", "bob", 3, 4⟩)], none⟩
        9 "Old" "New" "b" "C").2).prompts_data "Old" = none ∧
    dictGet ((update_prompt ⟨[("Old", ⟨"Old", "/a", "A", "alice", 1, 2⟩),
        ("K", ⟨"K", "/k", "B", "bob", 3, 4⟩)], none⟩
        9 "Old" "New" "b" "C").2).prompts_data "New" =
      some ⟨"New", normalizeCommand "b", "C", "alice", 1, 9⟩ := by
  have h := c8_rename_rekeys
    ⟨[("Old", ⟨"Old", "/a", "A", "alice", 1, 2⟩),
      ("K", ⟨"K", "/k", "B", "bob", 3, 4⟩)], none⟩
    9 "Old" "New" "b" "C" ⟨"Old", "/a", "A", "alice", 1, 2⟩
    (by decide) (by decide) (by decide) (by decide) (by decide) (by decide)
    (by decide) (by decide)
  exact ⟨by decide, by decide, by decide, h.1, h.2⟩

/-- Claim C9: persisting the in-memory mapping with save and reloading it
with the program's setup yields an identical mapping — the same titles and,
for each title, the same stored prompt with all its fields. -/
theorem c9_persist_reload_roundtrip (st : StoreState) :
    (setup (save_prompts st)).prompts_data = st.prompts_data ∧
    get_prompts_list (setup (save_prompts st)) = get_prompts_list st ∧
    ∀ t, dictGet (setup (save_prompts st)).prompts_data t =
      dictGet st.prompts_data t :=
  ⟨rfl, rfl, fun _ => rfl⟩

/-- Claim C10: create with a title that is already a key, non-empty fields
and a command held by no other prompt does not fail: it reports success and
replaces the entry under that title with a brand-new record whose created
and modified timestamps are the current time and whose creator is the
current user, discarding the previous record; all other titles are
untouched. -/
theorem c10_create_overwrites_title (st : StoreState) (now : Nat)
    (title command content : String) (old : Prompt)
    (_hold : dictGet st.prompts_data title = some old)
    (ht : title ≠ "") (hc : command ≠ "") (hct : content ≠ "")
    (hother : ∀ kv ∈ st.prompts_data,
      kv.2.command = normalizeCommand command → kv.1 = title) :
    (create_prompt st now title command content).1 =
      "Prompt \x27" ++ title ++ "\x27 created successfully!" ∧
    dictGet ((create_prompt st now title command content).2).prompts_data title =
      some ⟨title, normalizeCommand command, content, current_user, now, now⟩ ∧
    ∀ t2, t2 ≠ title →
      dictGet ((create_prompt st now title command content).2).prompts_data t2 =
        dictGet st.prompts_data t2 := by
  have hany := any_eq_false_of_guard st.prompts_data (normalizeCommand command)
    title hother
  unfold create_prompt
  rw [if_neg (by simp [ht, hc, hct] : ¬(title = "" ∨ command = "" ∨ content = ""))]
  rw [if_neg hany]
  refine ⟨rfl, ?_, ?_⟩
  · rw [dictGet_dictSet_self]
  · intro t2 h2
    rw [dictGet_dictSet_ne _ _ _ t2 h2]

theorem c10_witness :
    dictGet [("T", (⟨"T", "/old", "body", "alice", 1, 2⟩ : Prompt))] "T" =
      some ⟨"T", "/old", "body", "alice", 1, 2⟩ ∧
    ((create_prompt ⟨[("T", ⟨"T", "/old", "body", "alice", 1, 2⟩)], none⟩
        9 "T" "new" "B").1 =
      "Prompt \x27" ++ "T" ++ "\x27 created successfully!" ∧
     dictGet ((create_prompt ⟨[("T", ⟨"T", "/old", "body", "alice", 1, 2⟩)], none⟩
        9 "T" "new" "B").2).prompts_data "T" =
      some ⟨"T", normalizeCommand "new", "B", current_user, 9, 9⟩ ∧
     ∀ t2, t2 ≠ "T" →
       dictGet ((create_prompt ⟨[("T", ⟨"T", "/old", "body", "alice", 1, 2⟩)], none⟩
          9 "T" "new" "B").2).prompts_data t2 =
        dictGet [("T", ⟨"T", "/old", "body", "alice", 1, 2⟩)] t2) := by
  have h := c10_create_overwrites_title
    ⟨[("T", ⟨"T", "/old", "body", "alice", 1, 2⟩)], none⟩ 9 "T" "new" "B"
    ⟨"T", "/old", "body", "alice", 1, 2⟩
    (by decide) (by decide) (by decide) (by decide) (by decide)
  exact ⟨by decide, h⟩
